import Mathlib

/-!
# Verification of the tabeq-textract-service extraction-and-aggregation core

Shallow embedding of the repository's core logic:

* `src/textract_handler.py` — `parse_fields` (regex-cascade field parser);
* `src/csv_writer.py` — `write_csv` / `read_csv` (tabular sink);
* `old_web_app/csv_generator.py` — `extract_data_from_json` (document flattener).

The regular-expression patterns used by `parse_fields` are modelled by a small
backtracking matcher (`matchItems`) that reproduces Python `re` semantics for
exactly the constructs those patterns use: character-class repetition with
greedy backtracking, literal alternation tried left to right, capture groups,
word boundaries `\b`, leftmost `search`, and non-overlapping `findall`.
Python floats are modelled by exact decimals (`PyNum`): every numeric token the
parser formats has at most two fraction digits, for which float conversion and
comparison agree with the exact values at the magnitudes that occur, and
`str(float(...))` agrees with the decimal form with trailing fractional zeros
dropped.
-/

namespace Tabeq

/-! ## Character classes (Python `re`, ASCII range as used by the receipts) -/

/-- Python `\w` (ASCII range): letters, digits, underscore. -/
def isWordChar (c : Char) : Bool := c.isAlphanum || c == '_'

/-- Python `\s`: space, tab, newline, carriage return, vertical tab, form feed. -/
def isSpaceChar (c : Char) : Bool :=
  c == ' ' || c == '\t' || c == '\n' || c == '\r' || c == '\x0b' || c == '\x0c'

/-! ## A small backtracking regex matcher

A pattern is a flat list of items.  Capture groups never nest in the patterns
of `parse_fields`, so a group is delimited by `gopen`/`gclose` markers. -/

/-- One item of a regex pattern. -/
inductive RItem where
  /-- A character class repeated between `lo` and `hi` times (`none` = unbounded),
      matched greedily with backtracking (Python `{lo,hi}`, `*`, `+`, `?`). -/
  | cls (p : Char → Bool) (lo : Nat) (hi : Option Nat)
  /-- Alternation of literal strings tried left to right (`ci` = case-insensitive);
      when `opt` is set the empty alternative is tried last (Python `(?:a|b)?`). -/
  | lits (alts : List String) (ci : Bool) (opt : Bool)
  /-- Opening marker of a capture group. -/
  | gopen
  /-- Closing marker of a capture group. -/
  | gclose
  /-- Word boundary assertion (Python `\b`). -/
  | wordB

/-- Case-optionally-insensitive character comparison. -/
def charEq (ci : Bool) (a b : Char) : Bool :=
  if ci then a.toLower == b.toLower else a == b

/-- Match a literal string at the head of the input, returning the rest. -/
def litMatch (ci : Bool) : List Char → List Char → Option (List Char)
  | [], rest => some rest
  | _ :: _, [] => none
  | a :: as, c :: cs => if charEq ci a c then litMatch ci as cs else none

/-- Length of the longest prefix of `l` whose characters satisfy `p`. -/
def runLen (p : Char → Bool) : List Char → Nat
  | [] => 0
  | c :: cs => if p c then runLen p cs + 1 else 0

/-- `[top, top-1, ..., lo]` (empty when `top < lo`): greedy repetition counts. -/
def descCounts (lo top : Nat) : List Nat :=
  if lo ≤ top then (List.range (top + 1 - lo)).map (fun i => top - i) else []

/-- Is an optional character a word character (`none` = outside the string)? -/
def wordish : Option Char → Bool
  | some c => isWordChar c
  | none => false

/-- All ways the pattern can match a prefix of `rest`, in Python's backtracking
preference order (greedy repetition, alternatives left to right).  Each outcome
is the remaining input paired with the captures of the groups closed so far.
`prev` is the character just before `rest` (for `\b`), `gs` the input position
where the currently open group started. -/
def matchItems : List RItem → Option Char → Option (List Char) → List Char →
    List (List Char × List String)
  | [], _, _, rest => [(rest, [])]
  | RItem.gopen :: its, prev, _, rest => matchItems its prev (some rest) rest
  | RItem.gclose :: its, prev, gs, rest =>
      let cap := match gs with
        | some g => String.mk (g.take (g.length - rest.length))
        | none => ""
      (matchItems its prev none rest).map (fun o => (o.1, cap :: o.2))
  | RItem.wordB :: its, prev, gs, rest =>
      if wordish prev != wordish rest.head? then matchItems its prev gs rest else []
  | RItem.cls p lo hi :: its, prev, gs, rest =>
      let top := match hi with
        | some h => min h (runLen p rest)
        | none => runLen p rest
      (descCounts lo top).flatMap (fun k =>
        matchItems its (if k == 0 then prev else (rest.take k).getLast?) gs (rest.drop k))
  | RItem.lits alts ci opt :: its, prev, gs, rest =>
      let br := alts.filterMap (fun a =>
        (litMatch ci a.toList rest).map (fun r => (a.length, r)))
      let br := if opt then br ++ [(0, rest)] else br
      br.flatMap (fun kr =>
        matchItems its (if kr.1 == 0 then prev else (rest.take kr.1).getLast?) gs kr.2)

/-- Python `re.search` scanning: try the pattern at each position left to right,
return the captures of the first (leftmost) match. -/
def searchGo (pat : List RItem) : Option Char → List Char → Option (List String)
  | prev, [] => (matchItems pat prev none []).head?.map (fun o => o.2)
  | prev, c :: cs =>
    match (matchItems pat prev none (c :: cs)).head? with
    | some o => some o.2
    | none => searchGo pat (some c) cs

/-- Python `re.findall` scanning: collect captures of successive non-overlapping
leftmost matches, resuming after the end of each match.  `fuel` bounds the
iteration (each step consumes at least one character or ends the scan). -/
def findallGo (pat : List RItem) : Nat → Option Char → List Char → List (List String)
  | 0, _, _ => []
  | Nat.succ fuel, prev, rest =>
    match (matchItems pat prev none rest).head? with
    | some o =>
      let k := rest.length - o.1.length
      if k == 0 then
        match rest with
        | [] => [o.2]
        | c :: cs => o.2 :: findallGo pat fuel (some c) cs
      else o.2 :: findallGo pat fuel ((rest.take k).getLast?) o.1
    | none =>
      match rest with
      | [] => []
      | c :: cs => findallGo pat fuel (some c) cs

/-- `re.search(pat, s).group(1)`, or `none` when there is no match. -/
def search1 (pat : List RItem) (s : String) : Option String :=
  (searchGo pat none s.toList).map (fun caps => caps.headD "")

/-- `re.search(pat, s)` for a two-group pattern: `(group(1), group(2))`. -/
def search2 (pat : List RItem) (s : String) : Option (String × String) :=
  (searchGo pat none s.toList).map (fun caps => (caps.headD "", (caps.drop 1).headD ""))

/-- `re.findall(pat, s)` for a one-group pattern: the list of group-1 captures. -/
def findall1 (pat : List RItem) (s : String) : List String :=
  (findallGo pat (s.toList.length + 1) none s.toList).map (fun caps => caps.headD "")

/-! ## The patterns of `parse_fields` (src/textract_handler.py, lines 120–191) -/

/-- `\d{lo,hi}`. -/
def dd (lo hi : Nat) : RItem := RItem.cls Char.isDigit lo (some hi)

/-- `\d+`. -/
def digits1 : RItem := RItem.cls Char.isDigit 1 none

/-- `\s*`. -/
def ws0 : RItem := RItem.cls isSpaceChar 0 none

/-- `\s+`. -/
def ws1 : RItem := RItem.cls isSpaceChar 1 none

/-- The slash-or-dash separator class of the date patterns. -/
def dateSep : RItem := RItem.cls (fun c => c == '/' || c == '-') 1 (some 1)

/-- `r'\b(\d{1,2}[dash-or-slash]\d{1,2}[dash-or-slash]\d{4})\b'` — MM-DD-YYYY or DD-MM-YYYY. -/
def datePattern1 : List RItem :=
  [RItem.wordB, RItem.gopen, dd 1 2, dateSep, dd 1 2, dateSep, dd 4 4,
   RItem.gclose, RItem.wordB]

/-- `r'\b(\d{4}[dash-or-slash]\d{1,2}[dash-or-slash]\d{1,2})\b'` — YYYY-MM-DD. -/
def datePattern2 : List RItem :=
  [RItem.wordB, RItem.gopen, dd 4 4, dateSep, dd 1 2, dateSep, dd 1 2,
   RItem.gclose, RItem.wordB]

/-- `r'\b(\d{1,2}\s+\w+\s+\d{4})\b'` — DD Month YYYY. -/
def datePattern3 : List RItem :=
  [RItem.wordB, RItem.gopen, dd 1 2, ws1, RItem.cls isWordChar 1 none, ws1, dd 4 4,
   RItem.gclose, RItem.wordB]

/-- `r'\b(\w+\s+\d{1,2},?\s+\d{4})\b'` — Month DD, YYYY. -/
def datePattern4 : List RItem :=
  [RItem.wordB, RItem.gopen, RItem.cls isWordChar 1 none, ws1, dd 1 2,
   RItem.cls (fun c => c == ',') 0 (some 1), ws1, dd 4 4, RItem.gclose, RItem.wordB]

/-- The `date_patterns` list, in source order. -/
def datePatterns : List (List RItem) :=
  [datePattern1, datePattern2, datePattern3, datePattern4]

/-- The items of `\d{1,2}:\d{2}\s*(?:AM|PM|am|pm)?` inside the capture group;
`ci` is set for the `re.IGNORECASE` use in the range pattern. -/
def timeGroupItems (ci : Bool) : List RItem :=
  [RItem.gopen, dd 1 2, RItem.cls (fun c => c == ':') 1 (some 1), dd 2 2, ws0,
   RItem.lits ["AM", "PM", "am", "pm"] ci true, RItem.gclose]

/-- `r'(\d{1,2}:\d{2}\s*(?:AM|PM|am|pm)?)'` — searched with `re.findall`, no flags. -/
def timePattern : List RItem := timeGroupItems false

/-- `[-to]+` under `re.IGNORECASE`. -/
def rangeSep : RItem :=
  RItem.cls (fun c => c.toLower == '-' || c.toLower == 't' || c.toLower == 'o') 1 none

/-- `r'(time)\s*[-to]+\s*(time)'` — the explicit time-range pattern, `re.IGNORECASE`. -/
def timeRangePattern : List RItem :=
  timeGroupItems true ++ [ws0, rangeSep, ws0] ++ timeGroupItems true

/-- The capture group `([\d,]+\.?\d*)` of the total patterns. -/
def amountGroup : List RItem :=
  [RItem.gopen, RItem.cls (fun c => c.isDigit || c == ',') 1 none,
   RItem.cls (fun c => c == '.') 0 (some 1), RItem.cls Char.isDigit 0 none, RItem.gclose]

/-- `[:\s]{lo,}`. -/
def colonWs (lo : Nat) : RItem :=
  RItem.cls (fun c => c == ':' || isSpaceChar c) lo none

/-- `r'AED\s*([\d,]+\.?\d*)'` — AED 123.45. -/
def totalPattern1 : List RItem := [RItem.lits ["AED"] true false, ws0] ++ amountGroup

/-- `r'([\d,]+\.?\d*)\s*AED'` — 123.45 AED. -/
def totalPattern2 : List RItem := amountGroup ++ [ws0, RItem.lits ["AED"] true false]

/-- `r'TOTAL[:\s]+AED\s*([\d,]+\.?\d*)'` — TOTAL: AED 123.45. -/
def totalPattern3 : List RItem :=
  [RItem.lits ["TOTAL"] true false, colonWs 1, RItem.lits ["AED"] true false, ws0] ++
    amountGroup

/-- `r'TOTAL[:\s]+([\d,]+\.?\d*)'` — TOTAL: 123.45. -/
def totalPattern4 : List RItem :=
  [RItem.lits ["TOTAL"] true false, colonWs 1] ++ amountGroup

/-- `r'AMOUNT[:\s]+AED\s*([\d,]+\.?\d*)'` — AMOUNT: AED 123.45. -/
def totalPattern5 : List RItem :=
  [RItem.lits ["AMOUNT"] true false, colonWs 1, RItem.lits ["AED"] true false, ws0] ++
    amountGroup

/-- `r'GRAND\s+TOTAL[:\s]+([\d,]+\.?\d*)'` — GRAND TOTAL: 123.45. -/
def totalPattern6 : List RItem :=
  [RItem.lits ["GRAND"] true false, ws1, RItem.lits ["TOTAL"] true false, colonWs 1] ++
    amountGroup

/-- `r'(?:TOTAL|AMOUNT|SUM)[:\s]*\$?([\d,]+\.?\d*)'` — generic catch-all. -/
def totalPattern7 : List RItem :=
  [RItem.lits ["TOTAL", "AMOUNT", "SUM"] true false, colonWs 0,
   RItem.cls (fun c => c == '$') 0 (some 1)] ++ amountGroup

/-- The `total_patterns` list, in source order. -/
def totalPatterns : List (List RItem) :=
  [totalPattern1, totalPattern2, totalPattern3, totalPattern4, totalPattern5,
   totalPattern6, totalPattern7]

/-- `r'\b(\d+\.?\d{0,2})\b'` — the bare-decimal fallback price pattern. -/
def pricePattern : List RItem :=
  [RItem.wordB, RItem.gopen, digits1, RItem.cls (fun c => c == '.') 0 (some 1), dd 0 2,
   RItem.gclose, RItem.wordB]

/-! ## Python numbers, modelled exactly

`float(s)` on the digit-and-dot strings produced by the patterns, and
`str(float)` for values with at most two fraction digits (the only values the
fallback formats), modelled with exact rationals. -/

/-- Decimal value of a digit string. -/
def digitsVal (cs : List Char) : Nat :=
  cs.foldl (fun a c => 10 * a + (c.toNat - '0'.toNat)) 0

/-- An exact non-negative decimal: the value `num / 10 ^ scale`.  This models
the Python floats `parse_fields` handles (decimal tokens of the receipts):
conversion from such a token is exact up to float rounding, which preserves
order and formatting at the magnitudes concerned. -/
structure PyNum where
  num : Nat
  scale : Nat
deriving DecidableEq, Repr

/-- The rational value of a decimal. -/
def PyNum.toRat (a : PyNum) : ℚ := (a.num : ℚ) / (10 : ℚ) ^ a.scale

/-- Value comparison of two decimals (cross-multiplied, so executable). -/
def pyLt (a b : PyNum) : Bool :=
  decide (a.num * 10 ^ b.scale < b.num * 10 ^ a.scale)

/-- Python `max` of two numbers: the second only when strictly greater
(`max` keeps the first of equal elements). -/
def pyMax (a b : PyNum) : PyNum := if pyLt a b then b else a

/-- `float(s)` for the capture shapes of `parse_fields`: accepts strings of
digits with at most one dot and at least one digit, as an exact decimal;
everything else (in particular the empty string, `"."`, or leftover commas
turned into an all-comma capture) raises `ValueError`, i.e. returns `none`. -/
def pyFloat? (s : String) : Option PyNum :=
  let cs := s.toList
  if cs.any Char.isDigit ∧ cs.all (fun c => c.isDigit || c == '.') ∧ cs.count '.' ≤ 1 then
    let ip := cs.takeWhile (fun c => c ≠ '.')
    let fp := (cs.dropWhile (fun c => c ≠ '.')).drop 1
    some ⟨digitsVal ip * 10 ^ fp.length + digitsVal fp, fp.length⟩
  else none

/-- `str(float)` for a non-negative value with at most two fraction digits
(every fallback token has at most two): Python prints the shortest
round-tripping decimal, which for such values is the exact decimal with
trailing fractional zeros dropped and at least one fraction digit kept
(`4.5`, `3.25`, `500.0`, `7.05`). -/
def pyFloatStr (a : PyNum) : String :=
  let n := a.num * 100 / 10 ^ a.scale
  let ip := n / 100
  let fr := n % 100
  if fr == 0 then toString ip ++ ".0"
  else if fr % 10 == 0 then toString ip ++ "." ++ toString (fr / 10)
  else if fr < 10 then toString ip ++ ".0" ++ toString fr
  else toString ip ++ "." ++ toString fr

/-- Python `max` on a list of numbers (`0` on the empty list, unused there). -/
def maxNum : List PyNum → PyNum
  | [] => ⟨0, 0⟩
  | q :: qs => qs.foldl pyMax q

/-! ## `parse_fields` (src/textract_handler.py, lines 102–193) -/

/-- The result record: the four fields, each a string value or absent. -/
structure ParsedFields where
  date : Option String
  start_time : Option String
  end_time : Option String
  total : Option String
deriving DecidableEq, Repr

/-- First `some` in a list of options (the first matching pattern of a cascade). -/
def firstSome {α : Type} : List (Option α) → Option α
  | [] => none
  | some a :: _ => some a
  | none :: rest => firstSome rest

/-- The date cascade: `re.search` each pattern in order, keep the first capture. -/
def extractDate (lines : String) : Option String :=
  firstSome (datePatterns.map (fun p => search1 p lines))

/-- `re.findall(time_pattern, lines)` — all `H[H]:MM [AM/PM]` matches. -/
def timeMatchesOf (lines : String) : List String :=
  findall1 timePattern lines

/-- `re.search(time_range_pattern, lines, re.IGNORECASE)` — the two captures. -/
def rangeMatchOf (lines : String) : Option (String × String) :=
  search2 timeRangePattern lines

/-- `total_str.replace(',', '')`. -/
def stripCommas (s : String) : String :=
  String.mk (s.toList.filter (fun c => c != ','))

/-- One step of the total cascade: search the pattern; on a match, strip
thousands separators and validate with `float`; a capture that fails numeric
parsing counts as no match (the loop body's `continue`). -/
def tryTotalPattern (lines : String) (pat : List RItem) : Option String :=
  match search1 pat lines with
  | none => none
  | some cap =>
    let t := stripCommas cap
    if (pyFloat? t).isSome then some t else none

/-- The total cascade over `total_patterns`, first validated match wins. -/
def totalCascade (lines : String) : Option String :=
  firstSome (totalPatterns.map (tryTotalPattern lines))

/-- The `numeric_prices` list of the fallback (line 187): the values of all
bare-decimal tokens in the text that parse as positive numbers. -/
def positivePrices (lines : String) : List PyNum :=
  ((findall1 pricePattern lines).filterMap pyFloat?).filter (fun q => decide (0 < q.num))

/-- The largest-bare-number fallback (lines 179–191): `findall` the price
pattern, keep the positive values, format the maximum with `str`. -/
def fallbackTotal (lines : String) : Option String :=
  match positivePrices lines with
  | [] => none
  | q :: qs => some (pyFloatStr (maxNum (q :: qs)))

/-- `parse_fields`, following the source's sequential updates of the `fields`
dict: initialise all four fields to `None`, run the date cascade, the generic
time pairing, the range override, the total cascade, and — when the total is
still `None` (`if not fields['total']`; cascade results are non-empty numeric
strings, so falsy = `None`) — the largest-number fallback. -/
def parse_fields (lines : String) : ParsedFields :=
  let f0 : ParsedFields := ⟨none, none, none, none⟩
  let f1 := match extractDate lines with
    | some d => { f0 with date := some d }
    | none => f0
  let f2 := match timeMatchesOf lines with
    | t1 :: t2 :: _ => { f1 with start_time := some t1, end_time := some t2 }
    | [t1] => { f1 with start_time := some t1 }
    | [] => f1
  let f3 := match rangeMatchOf lines with
    | some ab => { f2 with start_time := some ab.1, end_time := some ab.2 }
    | none => f2
  let f4 := match totalCascade lines with
    | some t => { f3 with total := some t }
    | none => f3
  if f4.total = none then
    match fallbackTotal lines with
    | some t => { f4 with total := some t }
    | none => f4
  else f4

/-- The start-time field on its own: range override first, else first generic match. -/
def startTimeOf (lines : String) : Option String :=
  match rangeMatchOf lines with
  | some ab => some ab.1
  | none =>
    match timeMatchesOf lines with
    | t1 :: _ => some t1
    | [] => none

/-- The end-time field on its own: range override first, else second generic match. -/
def endTimeOf (lines : String) : Option String :=
  match rangeMatchOf lines with
  | some ab => some ab.2
  | none =>
    match timeMatchesOf lines with
    | _ :: t2 :: _ => some t2
    | _ => none

/-- The total field on its own: cascade, else fallback. -/
def totalOf (lines : String) : Option String :=
  match totalCascade lines with
  | some t => some t
  | none => fallbackTotal lines

/-! ## The tabular sink (src/csv_writer.py)

The sink file is modelled as a list of CSV records (one per `writeheader` /
`writerow` call; the `csv` module terminates each with CRLF, and quoted fields
keep embedded newlines inside one record).  `none` models a non-existent file.
Rows are Python dicts: partial maps from string keys to Python values. -/

/-- A Python value as stored in a row dict: `None` or a string. -/
inductive PyVal where
  | pyNone
  | pyStr (s : String)
deriving DecidableEq, Repr

/-- Python truthiness test (`not row['processed_at']`): `None` and `""` are falsy. -/
def pyFalsy : PyVal → Bool
  | PyVal.pyNone => true
  | PyVal.pyStr s => s == ""

/-- A row dict: `none` = key absent. -/
def DRow : Type := String → Option PyVal

/-- The string the `csv` writer emits for a looked-up dict value
(`row.get(header, None)`; `None` and a missing key are written as `""`). -/
def cellOf (row : DRow) (k : String) : String :=
  match row k with
  | some (PyVal.pyStr s) => s
  | _ => ""

/-- The fixed `headers` list of `write_csv`. -/
def csvHeaders : List String :=
  ["date", "start_time", "end_time", "total", "source_file", "processed_at"]

/-- Does the `csv` module quote this field (`QUOTE_MINIMAL`)? Exactly when it
contains the delimiter, the quote char, or a line-terminator character. -/
def needsQuoteL (l : List Char) : Bool :=
  l.any (fun c => c == ',' || c == '"' || c == '\r' || c == '\n')

/-- Double every quote character (the `csv` escaping inside quoted fields). -/
def escapeQ (l : List Char) : List Char :=
  l.flatMap (fun c => if c == '"' then ['"', '"'] else [c])

/-- Encode one field, quoting it when needed. -/
def encodeFieldL (l : List Char) : List Char :=
  if needsQuoteL l then '"' :: (escapeQ l ++ ['"']) else l

/-- Join encoded fields with the comma delimiter. -/
def joinComma : List (List Char) → List Char
  | [] => []
  | [x] => x
  | x :: xs => x ++ ',' :: joinComma xs

/-- Encode one CSV record from its field values. -/
def encodeRecord (vs : List String) : String :=
  String.mk (joinComma (vs.map (fun v => encodeFieldL v.toList)))

/-- The header record `write_csv` emits on file creation. -/
def headerRecord : String := encodeRecord csvHeaders

/-- The data record `write_csv` emits for one row (`clean_row` over `headers`). -/
def encodeRow (row : DRow) : String :=
  encodeRecord (csvHeaders.map (cellOf row))

/-- Split one CSV record into its decoded fields: the `csv` reader's state
machine over one record (`inQ` = inside quotes, `acc` = current field,
reversed).  A quote at field start opens quoting; inside quotes a doubled
quote is an escaped quote and a single one closes the field. -/
def splitRecGo : Bool → List Char → List Char → List (List Char)
  | _, acc, [] => [acc.reverse]
  | true, acc, '"' :: '"' :: rest2 => splitRecGo true ('"' :: acc) rest2
  | true, acc, '"' :: rest => splitRecGo false acc rest
  | true, acc, c :: rest => splitRecGo true (c :: acc) rest
  | false, acc, c :: rest =>
    if c == ',' then acc.reverse :: splitRecGo false [] rest
    else if c == '"' && acc.isEmpty then splitRecGo true acc rest
    else splitRecGo false (c :: acc) rest

/-- Decode one CSV record into its field values. -/
def decodeRecord (s : String) : List String :=
  (splitRecGo false [] s.toList).map String.mk

/-- The stamping loop of `write_csv` (lines 44–46) on one row dict: when
`processed_at` is missing or falsy, set it to the write-time timestamp;
the dict is otherwise left untouched. -/
def stampRow (ts : String) (row : DRow) : DRow :=
  match row "processed_at" with
  | none => fun k => if k = "processed_at" then some (PyVal.pyStr ts) else row k
  | some v =>
    if pyFalsy v then fun k => if k = "processed_at" then some (PyVal.pyStr ts) else row k
    else row

/-- The stamping loop over the whole `rows` list; `datetime.now()` is read once
per row, so the timestamp is a function of the row index. -/
def stampRows (ts : Nat → String) : List DRow → List DRow
  | [] => []
  | r :: rs => stampRow (ts 0) r :: stampRows (fun i => ts (i + 1)) rs

/-- `write_csv(rows, out_path)` on the sink file: read the existence flag,
stamp the rows, open in append mode (creating an empty file when absent),
and under the exclusive lock write the header when the pre-open check saw no
file, then one record per row. -/
def write_csv (rows : List DRow) (ts : Nat → String) (file : Option (List String)) :
    Option (List String) :=
  let fileExists := file.isSome
  let stamped := stampRows ts rows
  let lines := file.getD []
  some (lines ++ (if fileExists then [] else [headerRecord]) ++ stamped.map encodeRow)

/-- Python's universal-newline translation: `read_csv` opens the file in text
mode without `newline=''` (line 88), so the `TextIOWrapper` rewrites every
`CRLF` and every lone `CR` in the character stream to `LF` — also inside
quoted fields — before the `csv` reader parses it. -/
def uninl : List Char → List Char
  | [] => []
  | '\r' :: '\n' :: rest => '\n' :: uninl rest
  | '\r' :: rest => '\n' :: uninl rest
  | c :: rest => c :: uninl rest

/-- Universal-newline translation of a string. -/
def uninlStr (s : String) : String := String.mk (uninl s.toList)

/-- `read_csv(csv_path)`: `[]` when the file does not exist, otherwise
`DictReader` over the translated stream — the first record gives the field
names and every further record one row, as field-name/value pairs.  The
translation is applied per record: the writer terminates each record with
CRLF (which becomes LF, still a record boundary), unquoted field content never
contains CR or LF, and quoted regions keep their (translated) newlines inside
one record, so record boundaries are preserved. -/
def read_csv (file : Option (List String)) : List (List (String × String)) :=
  match file with
  | none => []
  | some [] => []
  | some (h :: rs) =>
      rs.map (fun r => (decodeRecord (uninlStr h)).zip (decodeRecord (uninlStr r)))

/-! ## Concurrent `write_csv` calls (claim C2)

Each concurrent one-row call is the sequence of atomic effects the source
performs against the shared file, in source order: the `os.path.exists`
check (line 41, before the file is opened), `open(..., 'a')` which creates
the file (line 49), `flock LOCK_EX` (line 52), the conditional `writeheader`
(lines 57–58), `writerow` (line 67), and `flock LOCK_UN` (line 71).
A scheduler step for a writer blocked on the lock leaves the state unchanged. -/

/-- A record of the shared file: the header or a data row of writer `i`. -/
inductive SinkRec where
  | header
  | row (i : Nat)
deriving DecidableEq, Repr

/-- Per-writer state: program counter and the existence flag it read. -/
structure WriterSt where
  pc : Nat
  sawExists : Bool
deriving DecidableEq, Repr

/-- The shared state: file existence, file records, lock owner, writers. -/
structure SinkSys where
  fileExists : Bool
  recs : List SinkRec
  lockOwner : Option Nat
  writers : List WriterSt
deriving DecidableEq, Repr

/-- One scheduler step: writer `i` performs its next atomic effect
(pc 0 = existence check, 1 = open/create, 2 = lock, 3 = conditional header,
4 = row write, 5 = unlock; 6 = done). -/
def sinkStep (s : SinkSys) (i : Nat) : SinkSys :=
  match s.writers.get? i with
  | none => s
  | some w =>
    match w.pc with
    | 0 => { s with writers := s.writers.set i ({ pc := 1, sawExists := s.fileExists } : WriterSt) }
    | 1 => { s with fileExists := true, writers := s.writers.set i { w with pc := 2 } }
    | 2 =>
      match s.lockOwner with
      | none => { s with lockOwner := some i, writers := s.writers.set i { w with pc := 3 } }
      | some _ => s
    | 3 =>
      let hdr : List SinkRec := if w.sawExists then [] else [SinkRec.header]
      { s with recs := s.recs ++ hdr, writers := s.writers.set i { w with pc := 4 } }
    | 4 =>
      { s with
        recs := s.recs ++ [SinkRec.row i]
        writers := s.writers.set i { w with pc := 5 } }
    | 5 => { s with lockOwner := none, writers := s.writers.set i { w with pc := 6 } }
    | _ => s

/-- Run a schedule (a sequence of writer indices). -/
def sinkRun (sched : List Nat) (s : SinkSys) : SinkSys :=
  sched.foldl sinkStep s

/-- `n` one-row writers against an initially non-existent file. -/
def sinkInit (n : Nat) : SinkSys :=
  ⟨false, [], none, List.replicate n ⟨0, false⟩⟩

/-- The interleaving in which both writers run their pre-open existence check
before either opens the file, then each completes in turn. -/
def racySched : List Nat :=
  [0, 1, 0, 0, 0, 0, 0, 1, 1, 1, 1, 1]

/-! ## The document flattener (old_web_app/csv_generator.py, `extract_data_from_json`)

A Textract expense field is read as `field.get('Type', {}).get('Text', '')`
and `field.get('ValueDetection', {}).get('Text', '')`; both lookups default to
`''`, so a field is modelled by its (possibly empty) type tag and value. -/

/-- One expense field: `(Type.Text, ValueDetection.Text)`, defaults applied. -/
structure EField where
  ftype : String
  fvalue : String
deriving DecidableEq, Repr

/-- One line item: its `LineItemExpenseFields`. -/
structure LineItem where
  fields : List EField
deriving DecidableEq, Repr

/-- One line-item group: its `LineItems`. -/
structure LineItemGroup where
  lineItems : List LineItem
deriving DecidableEq, Repr

/-- One expense document: `SummaryFields` and `LineItemGroups`. -/
structure ExpenseDoc where
  summaryFields : List EField
  lineItemGroups : List LineItemGroup
deriving DecidableEq, Repr

/-- The flat record built by `extract_data_from_json` (the extraction core;
`filename` and `processed_at` are file-system/clock bookkeeping). -/
structure Extracted where
  vendor_name : String
  total : String
  date : String
  items : List (String × String)
deriving DecidableEq, Repr

/-- The per-item field scan (lines 46–56): fold over the item's fields with
last-write-wins overwrite of `item_name` (tag `ITEM`) and `item_price`
(tag `PRICE`), both starting empty. -/
def scanItemFields (fs : List EField) : String × String :=
  fs.foldl (fun acc f =>
    if f.ftype = "ITEM" then (f.fvalue, acc.2)
    else if f.ftype = "PRICE" then (acc.1, f.fvalue)
    else acc) ("", "")

/-- Is a line item kept (line 58): non-empty name or non-empty price after
scanning all its fields? -/
def keepsItem (li : LineItem) : Bool :=
  let np := scanItemFields li.fields
  np.1 != "" || np.2 != ""

/-- The summary-field branch (lines 31–41): last-write-wins on the three
recognised tags, unrecognised tags ignored. -/
def scanSummaryFields (acc : Extracted) (fs : List EField) : Extracted :=
  fs.foldl (fun a f =>
    if f.ftype = "VENDOR_NAME" then { a with vendor_name := f.fvalue }
    else if f.ftype = "TOTAL" then { a with total := f.fvalue }
    else if f.ftype = "INVOICE_RECEIPT_DATE" then { a with date := f.fvalue }
    else a) acc

/-- The line-item loops (lines 43–62) of one document: append each kept item's
scanned (name, price) pair. -/
def scanLineItemGroups (acc : Extracted) (gs : List LineItemGroup) : Extracted :=
  gs.foldl (fun a g =>
    g.lineItems.foldl (fun a2 li =>
      let np := scanItemFields li.fields
      if np.1 != "" || np.2 != "" then { a2 with items := a2.items ++ [np] } else a2) a) acc

/-- `extract_data_from_json` over the parsed JSON's `ExpenseDocuments`:
start from the empty record and process each document's summary fields and
line-item groups in order. -/
def extract_data_from_json (docs : List ExpenseDoc) : Extracted :=
  docs.foldl (fun acc doc =>
    scanLineItemGroups (scanSummaryFields acc doc.summaryFields) doc.lineItemGroups)
    ⟨"", "", "", []⟩

/-- A document with three line items of which exactly one has both fields
empty (the spec's flattener test case). -/
def demoDoc : ExpenseDoc :=
  { summaryFields := [⟨"VENDOR_NAME", "COFFEE SHOP"⟩]
    lineItemGroups :=
      [⟨[⟨[⟨"ITEM", "Tea"⟩, ⟨"PRICE", "5.00"⟩]⟩,
         ⟨[⟨"ITEM", ""⟩, ⟨"PRICE", ""⟩]⟩,
         ⟨[⟨"ITEM", "Cake"⟩, ⟨"PRICE", "12.50"⟩]⟩]⟩] }

/-! ## Helper lemmas -/

/-- The sequential dict updates of `parse_fields` decompose into four
independent per-field extractions: no step clobbers another field. -/
theorem parse_fields_decomp (s : String) :
    parse_fields s = ⟨extractDate s, startTimeOf s, endTimeOf s, totalOf s⟩ := by
  unfold parse_fields startTimeOf endTimeOf totalOf
  cases h1 : extractDate s <;>
  cases h2 : rangeMatchOf s <;>
  cases h3 : totalCascade s <;>
  cases h4 : fallbackTotal s <;>
  rcases h5 : timeMatchesOf s with _ | ⟨t1, _ | ⟨t2, rest⟩⟩ <;>
  simp

/-- `pyLt` decides strict value order. -/
theorem pyLt_iff (a b : PyNum) : pyLt a b = true ↔ a.toRat < b.toRat := by
  unfold pyLt PyNum.toRat
  rw [decide_eq_true_eq, div_lt_div_iff₀ (by positivity) (by positivity)]
  constructor <;> intro h
  · exact_mod_cast h
  · exact_mod_cast h

/-- `pyMax` returns one of its arguments. -/
theorem pyMax_choice (a b : PyNum) : pyMax a b = a ∨ pyMax a b = b := by
  unfold pyMax
  by_cases h : pyLt a b = true <;> simp [h]

/-- `pyMax` dominates both arguments in value. -/
theorem le_pyMax (a b : PyNum) :
    a.toRat ≤ (pyMax a b).toRat ∧ b.toRat ≤ (pyMax a b).toRat := by
  unfold pyMax
  by_cases h : pyLt a b = true
  · simp only [h, if_pos]
    exact ⟨le_of_lt ((pyLt_iff a b).mp h), le_refl _⟩
  · simp only [h, if_neg, Bool.false_eq_true, not_false_eq_true, ite_false]
    refine ⟨le_refl _, ?_⟩
    by_contra hb
    exact h ((pyLt_iff a b).mpr (lt_of_not_le hb))

/-- `maxNum` of a non-empty list is an element of the list. -/
theorem maxNum_mem (q : PyNum) (qs : List PyNum) : maxNum (q :: qs) ∈ q :: qs := by
  suffices h : ∀ (l : List PyNum) (a : PyNum), l.foldl pyMax a ∈ a :: l by
    simpa [maxNum] using h qs q
  intro l
  induction l with
  | nil => simp
  | cons x xs ih =>
    intro a
    have := ih (pyMax a x)
    rcases List.mem_cons.mp this with h | h
    · rw [List.foldl_cons, h]
      rcases pyMax_choice a x with hm | hm <;> simp [hm]
    · simp [List.foldl_cons, h]

/-- Every element of a non-empty list has value at most `maxNum`'s value. -/
theorem le_maxNum (q : PyNum) (qs : List PyNum) :
    ∀ p ∈ q :: qs, p.toRat ≤ (maxNum (q :: qs)).toRat := by
  suffices h : ∀ (l : List PyNum) (a : PyNum),
      a.toRat ≤ (l.foldl pyMax a).toRat ∧ ∀ p ∈ l, p.toRat ≤ (l.foldl pyMax a).toRat by
    intro p hp
    rcases List.mem_cons.mp hp with rfl | hp
    · simpa [maxNum] using (h qs p).1
    · exact (h qs q).2 p hp
  intro l
  induction l with
  | nil => simp
  | cons x xs ih =>
    intro a
    refine ⟨le_trans (le_pyMax a x).1 (ih (pyMax a x)).1, ?_⟩
    intro p hp
    rcases List.mem_cons.mp hp with rfl | hp
    · exact le_trans (le_pyMax a p).2 (ih (pyMax a p)).1
    · exact (ih (pyMax a x)).2 p hp

/-- Inside quotes, the decoder undoes the quote-doubling of `escapeQ` and
leaves quoted mode at the closing quote (which is not doubled because the
following character is a delimiter or the record ends). -/
theorem splitRecGo_escape (f : List Char) (acc rest : List Char)
    (hr : rest.head? ≠ some '"') :
    splitRecGo true acc (escapeQ f ++ '"' :: rest) =
      splitRecGo false (f.reverse ++ acc) rest := by
  induction f generalizing acc with
  | nil =>
    rcases rest with _ | ⟨c, rest'⟩
    · simp [escapeQ, splitRecGo]
    · have hc : c ≠ '"' := by
        intro h
        exact hr (by simp [h])
      simp [escapeQ, splitRecGo, hc]
  | cons c t ih =>
    by_cases hc : c = '"'
    · subst hc
      have : escapeQ ('"' :: t) = '"' :: '"' :: escapeQ t := by simp [escapeQ]
      rw [this]
      show splitRecGo true acc ('"' :: '"' :: (escapeQ t ++ '"' :: rest)) = _
      rw [show splitRecGo true acc ('"' :: '"' :: (escapeQ t ++ '"' :: rest)) =
            splitRecGo true ('"' :: acc) (escapeQ t ++ '"' :: rest) from rfl, ih]
      simp
    · have : escapeQ (c :: t) = c :: escapeQ t := by simp [escapeQ, hc]
      rw [this]
      show splitRecGo true acc (c :: (escapeQ t ++ '"' :: rest)) = _
      rw [show splitRecGo true acc (c :: (escapeQ t ++ '"' :: rest)) =
            splitRecGo true (c :: acc) (escapeQ t ++ '"' :: rest) by simp [splitRecGo, hc],
          ih]
      simp

/-- Outside quotes, a field without delimiter or quote characters is copied
verbatim up to the delimiter. -/
theorem splitRecGo_plain (f : List Char) (acc rest : List Char)
    (hf : ∀ c ∈ f, c ≠ ',' ∧ c ≠ '"') :
    splitRecGo false acc (f ++ rest) = splitRecGo false (f.reverse ++ acc) rest := by
  induction f generalizing acc with
  | nil => simp
  | cons c t ih =>
    have hc := hf c (by simp)
    have ht : ∀ x ∈ t, x ≠ ',' ∧ x ≠ '"' := fun x hx => hf x (by simp [hx])
    show splitRecGo false acc (c :: (t ++ rest)) = _
    rw [show splitRecGo false acc (c :: (t ++ rest)) =
          splitRecGo false (c :: acc) (t ++ rest) by simp [splitRecGo, hc.1, hc.2],
        ih _ ht]
    simp

/-- Decoding one encoded field consumes exactly that field. -/
theorem splitRecGo_field (v rest : List Char) (hr : rest.head? ≠ some '"') :
    splitRecGo false [] (encodeFieldL v ++ rest) = splitRecGo false v.reverse rest := by
  by_cases hq : needsQuoteL v
  · have : encodeFieldL v ++ rest = '"' :: (escapeQ v ++ '"' :: rest) := by
      simp [encodeFieldL, hq]
    rw [this]
    rw [show splitRecGo false [] ('"' :: (escapeQ v ++ '"' :: rest)) =
          splitRecGo true [] (escapeQ v ++ '"' :: rest) from by simp [splitRecGo],
        splitRecGo_escape v [] rest hr]
    simp
  · have hf : ∀ c ∈ v, c ≠ ',' ∧ c ≠ '"' := by
      intro c hc
      have : ¬ (c == ',' || c == '"' || c == '\r' || c == '\n') := by
        intro h
        exact hq (List.any_eq_true.mpr ⟨c, hc, h⟩)
      constructor <;> (intro h; subst h; simp at this)
    rw [show encodeFieldL v = v from by simp [encodeFieldL, hq], splitRecGo_plain v [] rest hf]
    simp

/-- The record decoder inverts the record encoder. -/
theorem splitRec_encode (v : List Char) (vs : List (List Char)) :
    splitRecGo false [] (joinComma ((v :: vs).map encodeFieldL)) = v :: vs := by
  induction vs generalizing v with
  | nil =>
    have h := splitRecGo_field v [] (by simp)
    simp only [List.map_cons, List.map_nil, joinComma]
    rw [show encodeFieldL v = encodeFieldL v ++ [] by simp, h]
    simp [splitRecGo]
  | cons w ws ih =>
    have h := splitRecGo_field v (',' :: joinComma ((w :: ws).map encodeFieldL))
      (by simp)
    simp only [List.map_cons, joinComma] at h ⊢
    rw [h]
    rw [show splitRecGo false v.reverse (',' :: joinComma (encodeFieldL w :: ws.map encodeFieldL)) =
          v.reverse.reverse :: splitRecGo false [] (joinComma (encodeFieldL w :: ws.map encodeFieldL))
          from by simp [splitRecGo]]
    have := ih w
    simp only [List.map_cons] at this
    rw [this]
    simp

/-- String-level CSV round trip: decoding an encoded record recovers the fields. -/
theorem decodeRecord_encodeRecord (v : String) (vs : List String) :
    decodeRecord (encodeRecord (v :: vs)) = v :: vs := by
  unfold decodeRecord encodeRecord
  have : (v :: vs).map (fun x => encodeFieldL x.toList) =
      (v.toList :: vs.map String.toList).map encodeFieldL := by
    simp [List.map_map]
  rw [show (String.mk (joinComma ((v :: vs).map (fun x => encodeFieldL x.toList)))).toList =
        joinComma ((v :: vs).map (fun x => encodeFieldL x.toList)) from rfl, this,
      splitRec_encode]
  show String.mk v.toList :: (vs.map String.toList).map String.mk = v :: vs
  rw [List.map_map]
  exact congrArg (fun l => v :: l) (List.map_id vs)

/-- Universal-newline translation distributes over an append whose right part
does not start with `LF` (no CRLF pair spans the boundary). -/
theorem uninl_append (a b : List Char) (hb : b.head? ≠ some '\n') :
    uninl (a ++ b) = uninl a ++ uninl b := by
  induction a using uninl.induct with
  | case1 => simp [uninl]
  | case2 t ih =>
    show uninl ('\r' :: '\n' :: (t ++ b)) = uninl ('\r' :: '\n' :: t) ++ uninl b
    simp [uninl, ih]
  | case3 t h ih =>
    rcases t with _ | ⟨x, t2⟩
    · rcases hbb : b with _ | ⟨y, bs⟩
      · simp [uninl]
      · have hy : y ≠ '\n' := by
          intro hyy
          rw [hbb, hyy] at hb
          exact hb rfl
        show uninl ('\r' :: y :: bs) = uninl ['\r'] ++ uninl (y :: bs)
        simp [uninl, hy]
    · have hx : x ≠ '\n' := fun hxx => h t2 (by rw [hxx])
      show uninl ('\r' :: x :: (t2 ++ b)) = uninl ('\r' :: x :: t2) ++ uninl b
      rw [show uninl ('\r' :: x :: (t2 ++ b)) = '\n' :: uninl (x :: (t2 ++ b)) from
            by simp [uninl, hx],
          show uninl ('\r' :: x :: t2) = '\n' :: uninl (x :: t2) from by simp [uninl, hx]]
      rw [show (x :: (t2 ++ b)) = (x :: t2) ++ b from rfl, ih]
      simp
  | case4 c t h hc ih =>
    have hc2 : c ≠ '\r' := hc
    show uninl (c :: (t ++ b)) = uninl (c :: t) ++ uninl b
    rw [show uninl (c :: (t ++ b)) = c :: uninl (t ++ b) from by simp [uninl, hc2],
        show uninl (c :: t) = c :: uninl t from by simp [uninl, hc2], ih]
    simp

/-- Translation is the identity on CR-free character lists. -/
theorem uninl_eq_self (v : List Char) (h : '\r' ∉ v) : uninl v = v := by
  induction v with
  | nil => rfl
  | cons c t ih =>
    have hc : c ≠ '\r' := by
      intro hcc
      exact h (by simp [hcc])
    have ht : '\r' ∉ t := fun hm => h (by simp [hm])
    simp [uninl, hc, ih ht]

/-- Translation preserves the need for quoting (it maps CR-ish runs to `LF`,
which is itself a quote-forcing character, and touches nothing else). -/
theorem needsQuoteL_uninl (v : List Char) : needsQuoteL (uninl v) = needsQuoteL v := by
  induction v using uninl.induct with
  | case1 => rfl
  | case2 t ih =>
    show needsQuoteL (uninl ('\r' :: '\n' :: t)) = needsQuoteL ('\r' :: '\n' :: t)
    simp [uninl, needsQuoteL]
  | case3 t h ih =>
    rcases t with _ | ⟨x, t2⟩
    · simp [uninl, needsQuoteL]
    · have hx : x ≠ '\n' := fun hxx => h t2 (by rw [hxx])
      rw [show uninl ('\r' :: x :: t2) = '\n' :: uninl (x :: t2) from by simp [uninl, hx]]
      simp [needsQuoteL]
  | case4 c t h hc ih =>
    have hc2 : c ≠ '\r' := hc
    rw [show uninl (c :: t) = c :: uninl t from by simp [uninl, hc2]]
    show needsQuoteL (c :: uninl t) = needsQuoteL (c :: t)
    have ih2 : ((uninl t).any fun x => x == ',' || x == '"' || x == '\r' || x == '\n') =
        (t.any fun x => x == ',' || x == '"' || x == '\r' || x == '\n') := ih
    simp [needsQuoteL, ih2]

/-- Translation commutes with quote-doubling (`escapeQ` only duplicates quote
characters, which translation passes through). -/
theorem uninl_escapeQ (v : List Char) : uninl (escapeQ v) = escapeQ (uninl v) := by
  induction v using uninl.induct with
  | case1 => rfl
  | case2 t ih =>
    show uninl (escapeQ ('\r' :: '\n' :: t)) = escapeQ (uninl ('\r' :: '\n' :: t))
    rw [show escapeQ ('\r' :: '\n' :: t) = '\r' :: '\n' :: escapeQ t from by simp [escapeQ],
        show uninl ('\r' :: '\n' :: escapeQ t) = '\n' :: uninl (escapeQ t) from rfl,
        ih,
        show uninl ('\r' :: '\n' :: t) = '\n' :: uninl t from rfl]
    simp [escapeQ]
  | case3 t h ih =>
    rcases t with _ | ⟨x, t2⟩
    · simp [escapeQ, uninl]
    · have hx : x ≠ '\n' := fun hxx => h t2 (by rw [hxx])
      have hesc : ∃ e es, escapeQ (x :: t2) = e :: es ∧ e ≠ '\n' := by
        by_cases hq : x = '"'
        · exact ⟨'"', '"' :: escapeQ t2, by simp [escapeQ, hq], by decide⟩
        · exact ⟨x, escapeQ t2, by simp [escapeQ, hq], hx⟩
      obtain ⟨e, es, he, hene⟩ := hesc
      rw [show escapeQ ('\r' :: x :: t2) = '\r' :: escapeQ (x :: t2) from by simp [escapeQ],
          he,
          show uninl ('\r' :: e :: es) = '\n' :: uninl (e :: es) from by simp [uninl, hene],
          ← he, ih,
          show uninl ('\r' :: x :: t2) = '\n' :: uninl (x :: t2) from by simp [uninl, hx]]
      simp [escapeQ]
  | case4 c t h hc ih =>
    by_cases hq : c = '"'
    · subst hq
      rw [show escapeQ ('"' :: t) = '"' :: '"' :: escapeQ t from by simp [escapeQ],
          show uninl ('"' :: '"' :: escapeQ t) = '"' :: '"' :: uninl (escapeQ t) from rfl,
          ih,
          show uninl ('"' :: t) = '"' :: uninl t from rfl]
      simp [escapeQ]
    · have hc2 : c ≠ '\r' := hc
      rw [show escapeQ (c :: t) = c :: escapeQ t from by simp [escapeQ, hq],
          show uninl (c :: escapeQ t) = c :: uninl (escapeQ t) from by simp [uninl, hc2],
          ih,
          show uninl (c :: t) = c :: uninl t from by simp [uninl, hc2]]
      simp [escapeQ, hq]

/-- Translation commutes with field encoding. -/
theorem uninl_encodeFieldL (v : List Char) :
    uninl (encodeFieldL v) = encodeFieldL (uninl v) := by
  by_cases hq : needsQuoteL v
  · rw [show encodeFieldL v = '"' :: (escapeQ v ++ ['"']) from by simp [encodeFieldL, hq],
        show uninl ('"' :: (escapeQ v ++ ['"'])) =
          '"' :: uninl (escapeQ v ++ ['"']) from rfl,
        uninl_append _ _ (by decide), uninl_escapeQ,
        show uninl ['"'] = ['"'] from rfl]
    have hq2 : needsQuoteL (uninl v) = true := by
      rw [needsQuoteL_uninl]
      exact hq
    simp [encodeFieldL, hq2]
  · have hcr : '\r' ∉ v := by
      intro hm
      exact hq (List.any_eq_true.mpr ⟨'\r', hm, by decide⟩)
    rw [show encodeFieldL v = v from by simp [encodeFieldL, hq], uninl_eq_self v hcr,
        show encodeFieldL v = v from by simp [encodeFieldL, hq]]

/-- Translation commutes with record encoding, field by field. -/
theorem uninl_joinComma (ls : List (List Char)) :
    uninl (joinComma (ls.map encodeFieldL)) =
      joinComma (ls.map (fun l => encodeFieldL (uninl l))) := by
  induction ls with
  | nil => rfl
  | cons x t ih =>
    rcases t with _ | ⟨y, t2⟩
    · show uninl (joinComma [encodeFieldL x]) = joinComma [encodeFieldL (uninl x)]
      simp [joinComma, uninl_encodeFieldL]
    · show uninl (encodeFieldL x ++
          ',' :: joinComma ((y :: t2).map encodeFieldL)) = _
      rw [uninl_append (encodeFieldL x)
            (',' :: joinComma ((y :: t2).map encodeFieldL)) (by simp),
          show uninl (',' :: joinComma ((y :: t2).map encodeFieldL)) =
            ',' :: uninl (joinComma ((y :: t2).map encodeFieldL)) from
            by simp [uninl],
          ih, uninl_encodeFieldL]
      rfl

/-- String-level record commutation: translating an encoded record encodes the
translated field values. -/
theorem uninl_encodeRecord (vs : List String) :
    uninlStr (encodeRecord vs) = encodeRecord (vs.map uninlStr) := by
  have h1 : vs.map (fun v => encodeFieldL v.toList) =
      (vs.map String.toList).map encodeFieldL := by
    rw [List.map_map]
    rfl
  have h2 : (vs.map String.toList).map (fun l => encodeFieldL (uninl l)) =
      (vs.map uninlStr).map (fun v => encodeFieldL v.toList) := by
    rw [List.map_map, List.map_map]
    rfl
  show String.mk (uninl (joinComma (vs.map (fun v => encodeFieldL v.toList)))) =
    String.mk (joinComma ((vs.map uninlStr).map (fun v => encodeFieldL v.toList)))
  rw [h1, uninl_joinComma, h2]

/-- Reading back a translated encoded record recovers the translated values. -/
theorem decode_uninl_encode (v : String) (vs : List String) :
    decodeRecord (uninlStr (encodeRecord (v :: vs))) = (v :: vs).map uninlStr := by
  rw [uninl_encodeRecord]
  rw [show (v :: vs).map uninlStr = uninlStr v :: vs.map uninlStr from rfl]
  exact decodeRecord_encodeRecord (uninlStr v) (vs.map uninlStr)

/-- The line-item fold appends one item per kept line item. -/
theorem lineItemFold_length (lis : List LineItem) (a : Extracted) :
    ((lis.foldl (fun a2 li =>
        let np := scanItemFields li.fields
        if np.1 != "" || np.2 != "" then { a2 with items := a2.items ++ [np] } else a2)
      a).items).length = a.items.length + lis.countP keepsItem := by
  induction lis generalizing a with
  | nil => simp
  | cons li rest ih =>
    rw [List.foldl_cons, List.countP_cons, ih]
    by_cases h : ((scanItemFields li.fields).1 != "" || (scanItemFields li.fields).2 != "") = true
    · simp only [keepsItem, h, if_pos]
      simp [h]
      omega
    · simp only [keepsItem] at *
      simp [h]

/-- The group fold counts kept items across all groups of a document. -/
theorem scanLineItemGroups_length (gs : List LineItemGroup) (a : Extracted) :
    (scanLineItemGroups a gs).items.length =
      a.items.length + (gs.map (fun g => g.lineItems.countP keepsItem)).sum := by
  induction gs generalizing a with
  | nil => simp [scanLineItemGroups]
  | cons g rest ih =>
    rw [scanLineItemGroups, List.foldl_cons]
    rw [show (List.foldl _ _ rest : Extracted) = scanLineItemGroups
          (g.lineItems.foldl _ a) rest from rfl, ih, lineItemFold_length]
    simp
    omega

/-- The summary-field scan never touches the item list. -/
theorem scanSummaryFields_items (fs : List EField) (a : Extracted) :
    (scanSummaryFields a fs).items = a.items := by
  induction fs generalizing a with
  | nil => rfl
  | cons f rest ih =>
    rw [scanSummaryFields, List.foldl_cons]
    rw [show (List.foldl _ _ rest : Extracted) = scanSummaryFields _ rest from rfl, ih]
    by_cases h1 : f.ftype = "VENDOR_NAME"
    · simp [h1]
    · by_cases h2 : f.ftype = "TOTAL"
      · simp [h1, h2]
      · by_cases h3 : f.ftype = "INVOICE_RECEIPT_DATE" <;> simp [h1, h2, h3]

/-- The item count of the flattened record, over all documents. -/
theorem extract_items_length (docs : List ExpenseDoc) (a : Extracted) :
    ((docs.foldl (fun acc doc =>
        scanLineItemGroups (scanSummaryFields acc doc.summaryFields) doc.lineItemGroups)
      a).items).length =
      a.items.length +
        (docs.map (fun d => (d.lineItemGroups.map
          (fun g => g.lineItems.countP keepsItem)).sum)).sum := by
  induction docs generalizing a with
  | nil => simp
  | cons d rest ih =>
    rw [List.foldl_cons, ih, scanLineItemGroups_length, scanSummaryFields_items]
    simp
    omega

/-! ## The claims -/

/-- C1: for every input string — empty or arbitrarily malformed — `parse_fields`
returns a record with the four fields `date`, `start_time`, `end_time`,
`total`, each a string value or absent (`Option String`, and the embedding is
a total function, matching the source's never-raising contract).  The
sequential dict updates decompose into four independent per-field extractions,
so failure (absence) of any one field never prevents extraction of the others. -/
theorem c1_parser_total_and_fields_independent (s : String) :
    (parse_fields s).date = extractDate s ∧
    (parse_fields s).start_time = startTimeOf s ∧
    (parse_fields s).end_time = endTimeOf s ∧
    (parse_fields s).total = totalOf s := by
  rw [parse_fields_decomp]
  exact ⟨rfl, rfl, rfl, rfl⟩

/-- C2: the claim fails on the code.  `write_csv` runs the `os.path.exists`
check before opening — and hence before locking — the file, so two concurrent
one-row calls that both run the check before either opens the file both write
the header: under the interleaving `racySched` (which respects the lock; the
lock only serialises the writes, which is too late) both writers finish and
the file holds four records — header, row 0, header, row 1 — with two headers,
not the claimed `N + 1 = 3` records with a single header. -/
theorem c2_duplicate_header_under_race :
    (sinkRun racySched (sinkInit 2)).recs =
      [SinkRec.header, SinkRec.row 0, SinkRec.header, SinkRec.row 1] ∧
    ((sinkRun racySched (sinkInit 2)).writers.all (fun w => w.pc == 6)) = true ∧
    (sinkRun racySched (sinkInit 2)).recs.length ≠ 2 + 1 ∧
    (sinkRun racySched (sinkInit 2)).recs.count SinkRec.header = 2 := by
  exact ⟨by decide, by decide, by decide, by decide⟩

/-- C3 counterexample: on `"4.50 3.25 1.00"` the fallback computes
`str(max([4.5, 3.25, 1.0]))`, which is `"4.5"` — Python's float formatting
drops the trailing zero — not `"4.50"` as the claim states. -/
theorem c3_counterexample :
    (parse_fields "4.50 3.25 1.00").total = some "4.5" ∧
    (parse_fields "4.50 3.25 1.00").total ≠ some "4.50" := by
  exact ⟨by decide, by decide⟩

/-- C3 (amended): when no pattern of the total cascade succeeds, `parse_fields`
sets total to the `str` of the maximum positive value among the bare decimal
tokens (0–2 fraction digits) found in the text — with Python's float
formatting, which drops trailing fractional zeros, so the example text yields
`"4.5"` — and leaves total absent when no positive numeric token exists. -/
theorem c3_fallback_max_positive (s : String) (h : totalCascade s = none) :
    (positivePrices s = [] ∧ (parse_fields s).total = none) ∨
    (∃ q ∈ positivePrices s, (∀ p ∈ positivePrices s, p.toRat ≤ q.toRat) ∧
      (parse_fields s).total = some (pyFloatStr q)) := by
  have ht : (parse_fields s).total = fallbackTotal s := by
    rw [parse_fields_decomp]
    show totalOf s = _
    unfold totalOf
    rw [h]
  rcases hp : positivePrices s with _ | ⟨q, qs⟩
  · left
    refine ⟨rfl, ?_⟩
    rw [ht]
    unfold fallbackTotal
    rw [hp]
  · right
    refine ⟨maxNum (q :: qs), ?_, ?_, ?_⟩
    · exact maxNum_mem q qs
    · exact le_maxNum q qs
    · rw [ht]
      unfold fallbackTotal
      rw [hp]

/-- C3 witness: the amended fallback behaviour at the spec's example text. -/
theorem c3_fallback_max_positive_witness :
    totalCascade "4.50 3.25 1.00" = none ∧
    ((positivePrices "4.50 3.25 1.00" = [] ∧
        (parse_fields "4.50 3.25 1.00").total = none) ∨
     (∃ q ∈ positivePrices "4.50 3.25 1.00",
        (∀ p ∈ positivePrices "4.50 3.25 1.00", p.toRat ≤ q.toRat) ∧
        (parse_fields "4.50 3.25 1.00").total = some (pyFloatStr q))) :=
  ⟨by decide, c3_fallback_max_positive _ (by decide)⟩

/-- C4: the header record is exactly the six-column line
`date,start_time,end_time,total,source_file,processed_at`; it is written only
at file creation — an append to an existing file adds the data records and
nothing else — and the sequential two-call run on a fresh path yields exactly
one header record followed by the two data records, never two headers. -/
theorem c4_header_written_once :
    headerRecord = "date,start_time,end_time,total,source_file,processed_at" ∧
    (∀ rows ts f, write_csv rows ts (some f) =
      some (f ++ (stampRows ts rows).map encodeRow)) ∧
    (∀ (r1 r2 : DRow) ts1 ts2,
      write_csv [r2] ts2 (write_csv [r1] ts1 none) =
        some [headerRecord, encodeRow (stampRow (ts1 0) r1),
              encodeRow (stampRow (ts2 0) r2)]) := by
  refine ⟨by decide, ?_, ?_⟩
  · intro rows ts f
    simp [write_csv]
  · intro r1 r2 ts1 ts2
    simp [write_csv, stampRows]

/-- C4 has no hypotheses to witness; C5: the seven total patterns are
evaluated in the fixed source order; the first pattern whose capture — after
comma-stripping — parses as a number determines the total; a capture that
fails numeric parsing counts as no match and the cascade continues to the next
pattern; and the example text yields `"123.40"` even though a bare `500`
appears earlier in the text. -/
theorem c5_total_cascade_fixed_priority :
    (∀ s v, tryTotalPattern s totalPattern1 = some v →
      (parse_fields s).total = some v) ∧
    (∀ s v, tryTotalPattern s totalPattern1 = none →
      tryTotalPattern s totalPattern2 = some v →
      (parse_fields s).total = some v) ∧
    (∀ s v, tryTotalPattern s totalPattern1 = none →
      tryTotalPattern s totalPattern2 = none →
      tryTotalPattern s totalPattern3 = some v →
      (parse_fields s).total = some v) ∧
    (∀ s v, tryTotalPattern s totalPattern1 = none →
      tryTotalPattern s totalPattern2 = none →
      tryTotalPattern s totalPattern3 = none →
      tryTotalPattern s totalPattern4 = some v →
      (parse_fields s).total = some v) ∧
    (∀ s v, tryTotalPattern s totalPattern1 = none →
      tryTotalPattern s totalPattern2 = none →
      tryTotalPattern s totalPattern3 = none →
      tryTotalPattern s totalPattern4 = none →
      tryTotalPattern s totalPattern5 = some v →
      (parse_fields s).total = some v) ∧
    (∀ s v, tryTotalPattern s totalPattern1 = none →
      tryTotalPattern s totalPattern2 = none →
      tryTotalPattern s totalPattern3 = none →
      tryTotalPattern s totalPattern4 = none →
      tryTotalPattern s totalPattern5 = none →
      tryTotalPattern s totalPattern6 = some v →
      (parse_fields s).total = some v) ∧
    (∀ s v, tryTotalPattern s totalPattern1 = none →
      tryTotalPattern s totalPattern2 = none →
      tryTotalPattern s totalPattern3 = none →
      tryTotalPattern s totalPattern4 = none →
      tryTotalPattern s totalPattern5 = none →
      tryTotalPattern s totalPattern6 = none →
      tryTotalPattern s totalPattern7 = some v →
      (parse_fields s).total = some v) ∧
    (∀ s pat cap, search1 pat s = some cap → pyFloat? (stripCommas cap) = none →
      tryTotalPattern s pat = none) ∧
    (parse_fields "Receipt 500 items\nTOTAL: AED 123.40").total = some "123.40" := by
  have key : ∀ s, (parse_fields s).total = totalOf s := by
    intro s
    rw [parse_fields_decomp]
  refine ⟨?_, ?_, ?_, ?_, ?_, ?_, ?_, ?_, by decide⟩
  · intro s v h1
    rw [key]
    simp [totalOf, totalCascade, totalPatterns, firstSome, h1]
  · intro s v h1 h2
    rw [key]
    simp [totalOf, totalCascade, totalPatterns, firstSome, h1, h2]
  · intro s v h1 h2 h3
    rw [key]
    simp [totalOf, totalCascade, totalPatterns, firstSome, h1, h2, h3]
  · intro s v h1 h2 h3 h4
    rw [key]
    simp [totalOf, totalCascade, totalPatterns, firstSome, h1, h2, h3, h4]
  · intro s v h1 h2 h3 h4 h5
    rw [key]
    simp [totalOf, totalCascade, totalPatterns, firstSome, h1, h2, h3, h4, h5]
  · intro s v h1 h2 h3 h4 h5 h6
    rw [key]
    simp [totalOf, totalCascade, totalPatterns, firstSome, h1, h2, h3, h4, h5, h6]
  · intro s v h1 h2 h3 h4 h5 h6 h7
    rw [key]
    simp [totalOf, totalCascade, totalPatterns, firstSome, h1, h2, h3, h4, h5, h6, h7]
  · intro s pat cap h1 h2
    simp [tryTotalPattern, h1, h2]

/-- C5 witness: the first pattern (currency-code-prefixed) matches the example
text with a validly parsing capture, so the cascade stops there. -/
theorem c5_total_cascade_fixed_priority_witness :
    tryTotalPattern "Receipt 500 items\nTOTAL: AED 123.40" totalPattern1 =
      some "123.40" ∧
    (parse_fields "Receipt 500 items\nTOTAL: AED 123.40").total = some "123.40" :=
  ⟨by decide, c5_total_cascade_fixed_priority.1 _ _ (by decide)⟩

/-- C6: with two or more generic time matches the first becomes `start_time`
and the second `end_time` (later matches are discarded); with exactly one
match it becomes `start_time` and `end_time` stays absent; when the explicit
range pattern (dash or `to` separator) also matches, its two captures override
the generic pairing; and the example text pairs `"9:00 AM"`/`"5:00 PM"`
despite the later `9:15 AM`. -/
theorem c6_time_pairing_and_range_override :
    (∀ s a b, rangeMatchOf s = some (a, b) →
      (parse_fields s).start_time = some a ∧ (parse_fields s).end_time = some b) ∧
    (∀ s t1 t2 rest, rangeMatchOf s = none → timeMatchesOf s = t1 :: t2 :: rest →
      (parse_fields s).start_time = some t1 ∧ (parse_fields s).end_time = some t2) ∧
    (∀ s t1, rangeMatchOf s = none → timeMatchesOf s = [t1] →
      (parse_fields s).start_time = some t1 ∧ (parse_fields s).end_time = none) ∧
    (∀ s, rangeMatchOf s = none → timeMatchesOf s = [] →
      (parse_fields s).start_time = none ∧ (parse_fields s).end_time = none) ∧
    ((parse_fields "Opened 9:00 AM to 5:00 PM, last sale 9:15 AM").start_time =
        some "9:00 AM" ∧
     (parse_fields "Opened 9:00 AM to 5:00 PM, last sale 9:15 AM").end_time =
        some "5:00 PM") := by
  refine ⟨?_, ?_, ?_, ?_, by decide, by decide⟩
  · intro s a b h
    rw [parse_fields_decomp]
    exact ⟨by simp [startTimeOf, h], by simp [endTimeOf, h]⟩
  · intro s t1 t2 rest h1 h2
    rw [parse_fields_decomp]
    exact ⟨by simp [startTimeOf, h1, h2], by simp [endTimeOf, h1, h2]⟩
  · intro s t1 h1 h2
    rw [parse_fields_decomp]
    exact ⟨by simp [startTimeOf, h1, h2], by simp [endTimeOf, h1, h2]⟩
  · intro s h1 h2
    rw [parse_fields_decomp]
    exact ⟨by simp [startTimeOf, h1, h2], by simp [endTimeOf, h1, h2]⟩

/-- C6 witness: the range override applied at the example text. -/
theorem c6_time_pairing_witness :
    rangeMatchOf "Opened 9:00 AM to 5:00 PM, last sale 9:15 AM" =
      some ("9:00 AM", "5:00 PM") ∧
    ((parse_fields "Opened 9:00 AM to 5:00 PM, last sale 9:15 AM").start_time =
        some "9:00 AM" ∧
     (parse_fields "Opened 9:00 AM to 5:00 PM, last sale 9:15 AM").end_time =
        some "5:00 PM") :=
  ⟨by decide, c6_time_pairing_and_range_override.1 _ "9:00 AM" "5:00 PM" (by decide)⟩

/-- C7: the four date patterns are evaluated in the fixed source order — the
numeric day-first/month-first form, then year-first, then `DD month YYYY`,
then `month DD, YYYY` — the first pattern that matches anywhere determines the
date (its leftmost occurrence), there is no calendar validation, and the
example text containing both `2024-09-24` and `24 September 2024` yields
`2024-09-24`. -/
theorem c7_date_cascade_fixed_priority :
    (∀ s d, search1 datePattern1 s = some d → (parse_fields s).date = some d) ∧
    (∀ s d, search1 datePattern1 s = none → search1 datePattern2 s = some d →
      (parse_fields s).date = some d) ∧
    (∀ s d, search1 datePattern1 s = none → search1 datePattern2 s = none →
      search1 datePattern3 s = some d → (parse_fields s).date = some d) ∧
    (∀ s d, search1 datePattern1 s = none → search1 datePattern2 s = none →
      search1 datePattern3 s = none → search1 datePattern4 s = some d →
      (parse_fields s).date = some d) ∧
    (∀ s, search1 datePattern1 s = none → search1 datePattern2 s = none →
      search1 datePattern3 s = none → search1 datePattern4 s = none →
      (parse_fields s).date = none) ∧
    (parse_fields "Date: 2024-09-24 and 24 September 2024").date =
      some "2024-09-24" := by
  refine ⟨?_, ?_, ?_, ?_, ?_, by decide⟩
  · intro s d h1
    rw [parse_fields_decomp]
    simp [extractDate, datePatterns, firstSome, h1]
  · intro s d h1 h2
    rw [parse_fields_decomp]
    simp [extractDate, datePatterns, firstSome, h1, h2]
  · intro s d h1 h2 h3
    rw [parse_fields_decomp]
    simp [extractDate, datePatterns, firstSome, h1, h2, h3]
  · intro s d h1 h2 h3 h4
    rw [parse_fields_decomp]
    simp [extractDate, datePatterns, firstSome, h1, h2, h3, h4]
  · intro s h1 h2 h3 h4
    rw [parse_fields_decomp]
    simp [extractDate, datePatterns, firstSome, h1, h2, h3, h4]

/-- C7 witness: at the example text the first pattern fails and the second
(year-first) pattern supplies the date. -/
theorem c7_date_cascade_witness :
    search1 datePattern1 "Date: 2024-09-24 and 24 September 2024" = none ∧
    search1 datePattern2 "Date: 2024-09-24 and 24 September 2024" =
      some "2024-09-24" ∧
    (parse_fields "Date: 2024-09-24 and 24 September 2024").date =
      some "2024-09-24" :=
  ⟨by decide, by decide,
    c7_date_cascade_fixed_priority.2.1 _ _ (by decide) (by decide)⟩

/-- C8: the flattened record's line-item count equals the number of line items
(across all groups and documents) whose scanned ITEM/PRICE fields yield a
non-empty name or a non-empty price; items with both empty are dropped
silently; the demo document with 3 items of which one has both fields empty
retains 2. -/
theorem c8_flattener_item_count :
    (∀ docs : List ExpenseDoc, (extract_data_from_json docs).items.length =
      (docs.map (fun d => (d.lineItemGroups.map
        (fun g => g.lineItems.countP keepsItem)).sum)).sum) ∧
    (extract_data_from_json [demoDoc]).items.length = 2 := by
  constructor
  · intro docs
    unfold extract_data_from_json
    rw [extract_items_length]
    simp
  · decide

/-- C9 counterexample: a row whose `total` value contains a carriage return is
not read back verbatim.  `read_csv` opens the file without `newline=''`, so
universal-newline translation rewrites the quoted `"a\rb"` to `"a\nb"`: the
written (stamped) row has total `"a\rb"`, but the read result holds
`("total", "a\nb")` and no read row contains the written pair. -/
def crRow : DRow := fun k =>
  if k = "total" then some (PyVal.pyStr "a\rb")
  else if k = "processed_at" then some (PyVal.pyStr "TS") else none

/-- C9 counterexample: the written CR value comes back altered, refuting
verbatim recovery of all non-null fields. -/
theorem c9_roundtrip_counterexample :
    cellOf (stampRow "TS" crRow) "total" = "a\rb" ∧
    read_csv (write_csv [crRow] (fun _ => "TS") none) =
      [[("date", ""), ("start_time", ""), ("end_time", ""), ("total", "a\nb"),
        ("source_file", ""), ("processed_at", "TS")]] ∧
    (∀ l ∈ read_csv (write_csv [crRow] (fun _ => "TS") none),
      ("total", "a\rb") ∉ l) := by
  exact ⟨by decide, by decide, by decide⟩

/-- C9 (amended): writing rows with `write_csv` — to a non-existent path, or
appending to an existing sink file (the fixed header followed by any prior
records) — and reading back with `read_csv` recovers exactly the appended
stamped rows keyed by the six headers, with each value passed through
Python's universal-newline translation (because `read_csv` opens the file
without `newline=''`); the translation is the identity on values free of
carriage returns, so every such non-null field value — absent and `None`
fields come back as the empty string — is recovered verbatim; and reading a
non-existent file yields the empty sequence. -/
theorem c9_write_read_roundtrip :
    (∀ (rows : List DRow) ts, read_csv (write_csv rows ts none) =
      (stampRows ts rows).map (fun r =>
        csvHeaders.zip (csvHeaders.map (fun k => uninlStr (cellOf r k))))) ∧
    (∀ (rows : List DRow) ts rs,
      read_csv (write_csv rows ts (some (headerRecord :: rs))) =
        read_csv (some (headerRecord :: rs)) ++
          (stampRows ts rows).map (fun r =>
            csvHeaders.zip (csvHeaders.map (fun k => uninlStr (cellOf r k))))) ∧
    (∀ v : String, '\r' ∉ v.toList → uninlStr v = v) ∧
    read_csv none = [] := by
  have hh : decodeRecord (uninlStr headerRecord) = csvHeaders := by decide
  have hr : ∀ r : DRow, decodeRecord (uninlStr (encodeRow r)) =
      csvHeaders.map (fun k => uninlStr (cellOf r k)) := by
    intro r
    have h := decode_uninl_encode (cellOf r "date")
      (["start_time", "end_time", "total", "source_file", "processed_at"].map
        (cellOf r))
    exact h
  refine ⟨?_, ?_, ?_, rfl⟩
  · intro rows ts
    have hw : write_csv rows ts none =
        some (headerRecord :: (stampRows ts rows).map encodeRow) := by
      simp [write_csv]
    rw [hw]
    show ((stampRows ts rows).map encodeRow).map
        (fun r => (decodeRecord (uninlStr headerRecord)).zip
          (decodeRecord (uninlStr r))) = _
    rw [List.map_map]
    apply List.map_congr_left
    intro r _
    show (decodeRecord (uninlStr headerRecord)).zip
      (decodeRecord (uninlStr (encodeRow r))) = _
    rw [hh, hr r]
  · intro rows ts rs
    have hw : write_csv rows ts (some (headerRecord :: rs)) =
        some (headerRecord :: (rs ++ (stampRows ts rows).map encodeRow)) := by
      simp [write_csv]
    rw [hw]
    show (rs ++ (stampRows ts rows).map encodeRow).map
        (fun r => (decodeRecord (uninlStr headerRecord)).zip
          (decodeRecord (uninlStr r))) = _
    rw [List.map_append, List.map_map]
    congr 1
    apply List.map_congr_left
    intro r _
    show (decodeRecord (uninlStr headerRecord)).zip
      (decodeRecord (uninlStr (encodeRow r))) = _
    rw [hh, hr r]
  · intro v hv
    show String.mk (uninl v.toList) = v
    rw [uninl_eq_self v.toList hv]
    rfl

/-- C9 witness: the translation-identity component applied at a concrete
carriage-return-free value. -/
theorem c9_write_read_roundtrip_witness :
    ('\r' ∉ ("2024-01-15" : String).toList) ∧
    uninlStr "2024-01-15" = "2024-01-15" :=
  ⟨by decide, c9_write_read_roundtrip.2.2.1 "2024-01-15" (by decide)⟩

/-- C10: the row stamping `write_csv` performs in place on its caller's dicts
(modelled by `stampRows`, one `stampRow` per row at the per-row `now()`
timestamp): a row whose `processed_at` key is missing or falsy gets it set to
the write-time timestamp, a row with a truthy `processed_at` is left entirely
untouched, and no key other than `processed_at` of any row is added, removed,
or changed. -/
theorem c10_stamp_in_place_frame :
    (∀ (row : DRow) ts,
      (row "processed_at" = none ∨
        ∃ v, row "processed_at" = some v ∧ pyFalsy v = true) →
      stampRow ts row "processed_at" = some (PyVal.pyStr ts)) ∧
    (∀ (row : DRow) ts k, k ≠ "processed_at" → stampRow ts row k = row k) ∧
    (∀ (row : DRow) ts v, row "processed_at" = some v → pyFalsy v = false →
      stampRow ts row = row) ∧
    (∀ ts (r : DRow) rs, stampRows ts (r :: rs) =
      stampRow (ts 0) r :: stampRows (fun i => ts (i + 1)) rs) := by
  refine ⟨?_, ?_, ?_, fun ts r rs => rfl⟩
  · intro row ts h
    unfold stampRow
    rcases h with h | ⟨v, hv, hf⟩
    · rw [h]
      simp
    · rw [hv]
      simp [hf]
  · intro row ts k hk
    unfold stampRow
    rcases h : row "processed_at" with _ | v
    · simp [hk]
    · by_cases hf : pyFalsy v <;> simp [hf, hk]
  · intro row ts v hv hf
    unfold stampRow
    rw [hv]
    simp [hf]

/-- C10 witness: a concrete row without `processed_at` gets stamped. -/
def demoRow : DRow := fun k =>
  if k = "date" then some (PyVal.pyStr "2024-01-15") else none

/-- C10 witness: applying the stamping theorem at `demoRow`. -/
theorem c10_stamp_in_place_frame_witness :
    (demoRow "processed_at" = none ∨
      ∃ v, demoRow "processed_at" = some v ∧ pyFalsy v = true) ∧
    stampRow "2026-10-12T00:00:00" demoRow "processed_at" =
      some (PyVal.pyStr "2026-10-12T00:00:00") :=
  ⟨Or.inl (by simp [demoRow]),
   c10_stamp_in_place_frame.1 demoRow _ (Or.inl (by simp [demoRow]))⟩

end Tabeq

